import Mathlib

/- Shallow embedding of the sqlxy repository: a logical database handle that
fans a single query API out to one master and several slave physical
connections, routing writes to the master and reads to a slave chosen by a
round-robin counter. -/

namespace Sqlxy

/-- Modulus of Go uint64 arithmetic: the selection counter `count uint64`
wraps modulo 2 ^ 64. -/
def U64 : Nat := 2 ^ 64

/-- A physical database connection, as produced by the external collaborator
`sqlx.ConnectContext(ctx, driver, dsn)`; modelled by the driver name and the
DSN it was opened with. -/
structure Conn where
  driver : String
  dsn : List Char
deriving DecidableEq

instance : Inhabited Conn := ⟨⟨"", []⟩⟩

/-- Logical database handle, `type DB struct`: `conns []*sqlx.DB` is the
ordered sequence of physical databases (index 0 the master), and
`count uint64` the monotonically incremented query counter. -/
structure DB where
  conns : List Conn
  count : Nat
deriving DecidableEq

/-- Selector `func (db *DB) slave(n int) int`: if `n <= 1` it returns 0 (with
no other effect); otherwise it returns
`int(1 + (atomic.AddUint64(&db.count, 1) % uint64(n-1)))`, where
`atomic.AddUint64` stores and yields the incremented counter with uint64
wraparound. The result pairs the chosen index with the updated handle. -/
def DB.slave (db : DB) (n : Nat) : Nat × DB :=
  if n ≤ 1 then (0, db)
  else
    (1 + ((db.count + 1) % U64) % (n - 1), { db with count := (db.count + 1) % U64 })

/-- Handle state after `k` successive calls of `db.slave n`. -/
def slaveIter (db : DB) (n : Nat) : Nat → DB
  | 0 => db
  | k + 1 => ((slaveIter db n k).slave n).2

/-- Index produced by call number `k` (0-based) in a run of successive
`slave n` calls starting from `db`. -/
def slaveNth (db : DB) (n k : Nat) : Nat :=
  ((slaveIter db n k).slave n).1

theorem slave_conns_eq (db : DB) (n : Nat) : (db.slave n).2.conns = db.conns := by
  unfold DB.slave
  split <;> rfl

theorem slave_count_eq (db : DB) (n : Nat) (h : 2 ≤ n) :
    (db.slave n).2.count = (db.count + 1) % U64 := by
  unfold DB.slave
  split
  · omega
  · rfl

theorem slaveIter_count (cs : List Conn) (n : Nat) (h : 2 ≤ n) (k : Nat) :
    (slaveIter ⟨cs, 0⟩ n k).count = k % U64 := by
  induction k with
  | zero =>
    simp [slaveIter, Nat.zero_mod]
  | succ k ih =>
    have hmod : ((k % U64) + 1) % U64 = (k + 1) % U64 := Nat.mod_add_mod k U64 1
    simp [slaveIter, slave_count_eq _ _ h, ih, hmod]

/-- C1: for every target count `n`, `slave` returns 0 when `n ≤ 1`, and
otherwise returns 1 + (incremented counter mod (n-1)), an index that always
lies in 1..n-1 and is never 0. -/
theorem slave_index_spec (db : DB) (n : Nat) :
    (n ≤ 1 → (db.slave n).1 = 0) ∧
    (2 ≤ n →
      (db.slave n).1 = 1 + ((db.count + 1) % U64) % (n - 1) ∧
      1 ≤ (db.slave n).1 ∧ (db.slave n).1 ≤ n - 1 ∧ (db.slave n).1 ≠ 0) := by
  constructor
  · intro h
    unfold DB.slave
    simp [h]
  · intro h
    have hlt : ((db.count + 1) % U64) % (n - 1) < n - 1 :=
      Nat.mod_lt _ (by omega)
    unfold DB.slave
    have hn : ¬ n ≤ 1 := by omega
    simp only [hn, if_false]
    refine ⟨trivial, by omega, by omega, by omega⟩

/-- Witness for C1 at n = 3 and a fresh handle: the hypotheses hold and the
chosen index is in range. -/
theorem slave_index_spec_w :
    (2 ≤ 3 ∧
      ((DB.mk [] 0).slave 3).1 = 1 + ((0 + 1) % U64) % (3 - 1) ∧
      1 ≤ ((DB.mk [] 0).slave 3).1 ∧ ((DB.mk [] 0).slave 3).1 ≤ 3 - 1 ∧
      ((DB.mk [] 0).slave 3).1 ≠ 0) :=
  ⟨by omega, (slave_index_spec (DB.mk [] 0) 3).2 (by omega)⟩

/-- C2 counterexample: the claim says that from a fresh counter with N = 3
targets the produced sequence starts 1, 2, 1, 2, ...; in the code the very
first call returns 2, because `atomic.AddUint64` yields the incremented
value 1 and 1 + (1 mod 2) = 2. -/
theorem slave_cycle_cex :
    slaveNth ⟨[⟨"d", ['A']⟩, ⟨"d", ['B']⟩, ⟨"d", ['C']⟩], 0⟩ 3 0 = 2 ∧ (2 : Nat) ≠ 1 := by
  constructor
  · decide
  · decide

/-- C2 amended: for every n ≥ 2, successive `slave n` calls from a fresh
(zero) counter produce at step k (0-based, while k + 1 stays below 2 ^ 64)
the index 1 + ((k+1) mod (n-1)); hence the sequence is periodic with period
n - 1 and visits every index j in 1..n-1 once per period, but it begins at
1 + (1 mod (n-1)) — i.e. at 2 when n ≥ 3 (sequence 2, 1, 2, 1, ... for
n = 3; 2, 3, 1, 2, 3, 1, ... for n = 4), and at 1 only when n = 2. -/
theorem slave_cycle (cs : List Conn) (n k : Nat) (h2 : 2 ≤ n) (hk : k + 1 < U64) :
    slaveNth ⟨cs, 0⟩ n k = 1 + (k + 1) % (n - 1) ∧
    (k + n < U64 → slaveNth ⟨cs, 0⟩ n (k + (n - 1)) = slaveNth ⟨cs, 0⟩ n k) ∧
    (∀ j, 1 ≤ j → j ≤ n - 1 → j + n < U64 → slaveNth ⟨cs, 0⟩ n (j + n - 3) = j) := by
  have closed : ∀ m, m + 1 < U64 → slaveNth ⟨cs, 0⟩ n m = 1 + (m + 1) % (n - 1) := by
    intro m hm
    unfold slaveNth
    have hc : (slaveIter ⟨cs, 0⟩ n m).count = m % U64 := slaveIter_count cs n h2 m
    have hn : ¬ n ≤ 1 := by omega
    unfold DB.slave
    simp only [hn, if_false, hc]
    have h1 : (m % U64 + 1) % U64 = (m + 1) % U64 := Nat.mod_add_mod m U64 1
    have h2' : (m + 1) % U64 = m + 1 := Nat.mod_eq_of_lt hm
    rw [h1, h2']
  refine ⟨closed k hk, ?_, ?_⟩
  · intro hkn
    have hA := closed (k + (n - 1)) (by omega)
    have hB := closed k hk
    rw [hA, hB]
    have : k + (n - 1) + 1 = (k + 1) + (n - 1) := by omega
    rw [this, Nat.add_mod_right]
  · intro j hj1 hj2 hjn
    have hA := closed (j + n - 3) (by omega)
    rw [hA]
    have he : j + n - 3 + 1 = (j - 1) + (n - 1) := by omega
    rw [he, Nat.add_mod_right, Nat.mod_eq_of_lt (by omega)]
    omega

/-- Witness for C2 (amended) at n = 3, k = 0 on a fresh handle: the first
index produced is 1 + (1 mod 2) = 2, the period-2 repetition holds at k = 0,
and index j = 2 appears at step j + n - 3 = 2. -/
theorem slave_cycle_w :
    (2 ≤ 3 ∧ 0 + 1 < U64) ∧
    (slaveNth ⟨[], 0⟩ 3 0 = 1 + (0 + 1) % (3 - 1) ∧
      (0 + 3 < U64 → slaveNth ⟨[], 0⟩ 3 (0 + (3 - 1)) = slaveNth ⟨[], 0⟩ 3 0) ∧
      (∀ j, 1 ≤ j → j ≤ 3 - 1 → j + 3 < U64 → slaveNth ⟨[], 0⟩ 3 (j + 3 - 3) = j)) :=
  ⟨⟨by omega, by decide⟩, slave_cycle [] 3 0 (by omega) (by decide)⟩

/-- C9 counterexample: the claim says every `slave` call increments the
shared counter by exactly one, including for n ≤ 1; but for n = 1 the code
returns 0 without touching the counter: on a one-connection handle with
counter 0 the counter is still 0 afterwards, not 1. -/
theorem slave_frame_cex :
    ((DB.mk [⟨"d", []⟩] 0).slave 1).2.count = 0 ∧ (0 : Nat) ≠ 1 := by
  constructor
  · rfl
  · decide

/-- C9 amended: a `slave` call with n ≥ 2 sets the counter to its old value
plus one (as a uint64, i.e. modulo 2 ^ 64) and changes no other state of the
handle; a call with n ≤ 1 returns 0 and leaves the handle entirely
unchanged — in particular it does not increment the counter. -/
theorem slave_frame (db : DB) (n : Nat) :
    (2 ≤ n →
      (db.slave n).2.count = (db.count + 1) % U64 ∧
      (db.slave n).2.conns = db.conns) ∧
    (n ≤ 1 → db.slave n = (0, db)) := by
  constructor
  · intro h
    exact ⟨slave_count_eq db n h, slave_conns_eq db n⟩
  · intro h
    unfold DB.slave
    simp [h]

/-- Witness for C9 (amended) at a two-connection handle with counter 0: the
call sets the counter to (0 + 1) mod 2 ^ 64 and keeps the connections; and at
n = 1 the handle is returned unchanged. -/
theorem slave_frame_w :
    (2 ≤ 2 ∧
      ((DB.mk [⟨"d", []⟩, ⟨"e", []⟩] 0).slave 2).2.count = (0 + 1) % U64 ∧
      ((DB.mk [⟨"d", []⟩, ⟨"e", []⟩] 0).slave 2).2.conns = [⟨"d", []⟩, ⟨"e", []⟩]) ∧
    (1 ≤ 1 → (DB.mk [⟨"f", []⟩] 0).slave 1 = (0, DB.mk [⟨"f", []⟩] 0)) :=
  ⟨⟨by omega, (slave_frame (DB.mk [⟨"d", []⟩, ⟨"e", []⟩] 0) 2).1 (by omega)⟩,
    (slave_frame (DB.mk [⟨"f", []⟩] 0) 1).2⟩

/-- Receive loop of `func scan`: `for i = 0; i < cap(errors); i++` receives
one outcome per iteration and, whenever the received `innerErr` is non-nil,
overwrites `err` with it; the final `err` is returned. `received` is the list
of outcomes in the order the channel delivers them. -/
def collectErrs {ε : Type} (received : List (Option ε)) : Option ε :=
  received.foldl (fun err inner => match inner with | none => err | some e => some e) none

/-- Receive loop of `func scan` instrumented with its iteration count: the
first component counts how many results were received before returning. -/
def collectErrsCount {ε : Type} (received : List (Option ε)) : Nat × Option ε :=
  received.foldl
    (fun p inner => (p.1 + 1, match inner with | none => p.2 | some e => some e))
    (0, none)

/-- Fan-out executor `func scan(n int, fn func(i int) error) error`: spawns
one goroutine per index, each sending `fn i` on a buffered channel, then
receives all results and aggregates them. `order` lists the goroutine indices
in completion (receive) order; a run of `scan n fn` is any `scan fn order`
with `order` a permutation of `List.range n`. -/
def scan {ε : Type} (fn : Nat → Option ε) (order : List Nat) : Option ε :=
  collectErrs (order.map fn)

theorem collectErrs_append {ε : Type} (l : List (Option ε)) (x : Option ε) :
    collectErrs (l ++ [x]) =
      match x with | none => collectErrs l | some e => some e := by
  unfold collectErrs
  rw [List.foldl_append]
  cases x <;> rfl

theorem collectErrs_eq_getLast {ε : Type} (l : List (Option ε)) :
    collectErrs l = (l.filterMap id).getLast? := by
  induction l using List.reverseRecOn with
  | nil => rfl
  | append_singleton l x ih =>
    rw [collectErrs_append]
    cases x with
    | none =>
      simp only [List.filterMap_append, List.filterMap_cons, id, List.filterMap_nil,
        List.append_nil]
      exact ih
    | some e =>
      simp [List.filterMap_append, List.filterMap_cons, List.getLast?_append]

theorem collectErrs_eq_none_iff {ε : Type} (l : List (Option ε)) :
    collectErrs l = none ↔ ∀ x ∈ l, x = none := by
  induction l using List.reverseRecOn with
  | nil => simp [collectErrs]
  | append_singleton l x ih =>
    rw [collectErrs_append]
    cases x with
    | none =>
      simp only [ih, List.mem_append, List.mem_singleton]
      constructor
      · rintro h x (hx | rfl)
        · exact h x hx
        · rfl
      · intro h x hx
        exact h x (Or.inl hx)
    | some e =>
      simp only [List.mem_append, List.mem_singleton]
      constructor
      · intro h
        exact absurd h (by simp)
      · intro h
        exact h (some e) (Or.inr rfl)

theorem collectErrsCount_fst {ε : Type} (l : List (Option ε)) :
    (collectErrsCount l).1 = l.length := by
  suffices h : ∀ (k : Nat) (a : Option ε),
      (l.foldl (fun p inner => (p.1 + 1, match inner with | none => p.2 | some e => some e))
        (k, a)).1 = k + l.length by
    simpa using h 0 none
  induction l with
  | nil => intro k a; simp
  | cons x xs ih =>
    intro k a
    simp only [List.foldl_cons, List.length_cons]
    rw [ih]
    omega

/-- C3: under any completion order of the `n` spawned operations, `scan`
returns no failure exactly when every operation succeeds; otherwise it
returns exactly the last failure observed in completion order, discarding
the earlier ones; and for n = 0 it returns success. -/
theorem scan_aggregation {ε : Type} (n : Nat) (fn : Nat → Option ε) (order : List Nat)
    (hperm : order.Perm (List.range n)) :
    (scan fn order = none ↔ ∀ i < n, fn i = none) ∧
    scan fn order = ((order.map fn).filterMap id).getLast? ∧
    (n = 0 → scan fn order = none) := by
  have hmem : ∀ i, i ∈ order ↔ i < n := by
    intro i
    rw [hperm.mem_iff, List.mem_range]
  have hnone : scan fn order = none ↔ ∀ i < n, fn i = none := by
    unfold scan
    rw [collectErrs_eq_none_iff]
    constructor
    · intro h i hi
      exact h (fn i) (List.mem_map_of_mem fn ((hmem i).2 hi))
    · intro h x hx
      obtain ⟨i, hi, rfl⟩ := List.mem_map.1 hx
      exact h i ((hmem i).1 hi)
  refine ⟨hnone, collectErrs_eq_getLast _, ?_⟩
  intro hn
  subst hn
  exact hnone.2 (by omega)

/-- Witness for C3 with n = 3, one failing operation and completion order
[2, 0, 1]: the aggregate is the last failure observed. -/
theorem scan_aggregation_w :
    List.Perm [2, 0, 1] (List.range 3) ∧
    ((scan (fun i => if i = 0 then some "boom" else none) [2, 0, 1] = none ↔
        ∀ i < 3, (fun i => if i = 0 then some "boom" else none) i = none) ∧
      scan (fun i => if i = 0 then some "boom" else none) [2, 0, 1] =
        (([2, 0, 1].map (fun i => if i = 0 then some "boom" else none)).filterMap id).getLast? ∧
      (3 = 0 → scan (fun i => if i = 0 then some "boom" else none) [2, 0, 1] = none)) :=
  ⟨by decide, scan_aggregation 3 (fun i => if i = 0 then some "boom" else none) [2, 0, 1]
    (by decide)⟩

/-- C4: under any completion order, every index in [0, n) is invoked exactly
once (it appears exactly once among the completions), no other index is ever
invoked, and the receive loop performs exactly n iterations before `scan`
returns — also when some operations fail, so there is no short-circuit. -/
theorem scan_runs_all {ε : Type} (n : Nat) (fn : Nat → Option ε) (order : List Nat)
    (hperm : order.Perm (List.range n)) :
    (∀ i < n, order.count i = 1) ∧
    (∀ i, n ≤ i → order.count i = 0) ∧
    (collectErrsCount (order.map fn)).1 = n := by
  refine ⟨?_, ?_, ?_⟩
  · intro i hi
    rw [hperm.count_eq]
    exact List.count_eq_one_of_mem (List.nodup_range n) (List.mem_range.2 hi)
  · intro i hi
    rw [hperm.count_eq]
    exact List.count_eq_zero.2 (fun h => by have := List.mem_range.1 h; omega)
  · rw [collectErrsCount_fst, List.length_map, hperm.length_eq, List.length_range]

/-- Witness for C4 with n = 3, an operation failing at index 0 and completion
order [1, 2, 0]: every index completes exactly once and the loop runs 3
iterations. -/
theorem scan_runs_all_w :
    List.Perm [1, 2, 0] (List.range 3) ∧
    ((∀ i < 3, List.count i [1, 2, 0] = 1) ∧
      (∀ i, 3 ≤ i → List.count i [1, 2, 0] = 0) ∧
      (collectErrsCount ([1, 2, 0].map (fun i => if i = 0 then some "boom" else none))).1 = 3) :=
  ⟨by decide, scan_runs_all 3 (fun i => if i = 0 then some "boom" else none) [1, 2, 0]
    (by decide)⟩

/-- Split of Go, `strings.Split(s, sep)` for the single-character separator
used by `Open`: splits the string around each instance of the separator;
the empty string yields one empty part. -/
def goSplit (sep : Char) : List Char → List (List Char)
  | [] => [[]]
  | c :: cs =>
    if c = sep then [] :: goSplit sep cs
    else
      match goSplit sep cs with
      | [] => [[c]]
      | p :: ps => (c :: p) :: ps

theorem goSplit_ne_nil (sep : Char) (s : List Char) : goSplit sep s ≠ [] := by
  induction s with
  | nil => simp [goSplit]
  | cons c cs ih =>
    unfold goSplit
    split
    · simp
    · cases h : goSplit sep cs with
      | nil => simp
      | cons p ps => simp

theorem goSplit_length (sep : Char) (s : List Char) :
    (goSplit sep s).length = s.count sep + 1 := by
  induction s with
  | nil => simp [goSplit]
  | cons c cs ih =>
    unfold goSplit
    by_cases hc : c = sep
    · subst hc
      simp [List.count_cons, ih]
    · simp only [hc, if_false]
      cases h : goSplit sep cs with
      | nil => exact absurd h (goSplit_ne_nil sep cs)
      | cons p ps =>
        rw [h] at ih
        simp only [List.length_cons] at ih ⊢
        simp [List.count_cons, hc, ih]

/-- Connection step of `func Open(ctx, driver, source)`: `source` is split on
";" into DSNs, a handle with one slot per DSN is allocated, and `scan`
connects every index concurrently through `sqlx.ConnectContext`; `connErr`
gives the collaborator's outcome per DSN and `order` the completion order.
On any failure the aggregated error is returned and no handle; otherwise the
handle holding one connection per DSN, in order, with a zero counter. -/
def Open {ε : Type} (driver : String) (source : List Char)
    (connErr : List Char → Option ε) (order : List Nat) : Except ε DB :=
  match scan (fun i => connErr ((goSplit ';' source).getD i [])) order with
  | some e => Except.error e
  | none => Except.ok ⟨(goSplit ';' source).map (fun d => ⟨driver, d⟩), 0⟩

/-- Accessor `func (db *DB) Master()`: `db.conns[0]`. -/
def DB.Master (db : DB) : Conn := db.conns.headI

/-- Accessor `func (db *DB) Slave()`: `db.conns[db.slave(len(db.conns))]`,
paired with the handle as updated by the selector call. -/
def DB.Slave (db : DB) : Conn × DB :=
  (db.conns.getD (db.slave db.conns.length).1 default, (db.slave db.conns.length).2)

/-- Write `func (db *DB) Exec`: `db.Master().MustExecContext(...)` — the
physical connection the statement runs on, with the handle unchanged. -/
def DB.Exec (db : DB) : Conn × DB := (db.Master, db)

/-- Write `func (db *DB) NamedExec`: `db.Master().NamedExecContext(...)`. -/
def DB.NamedExec (db : DB) : Conn × DB := (db.Master, db)

/-- Write `func (db *DB) Begin`: `db.Master().Beginx()`. -/
def DB.Begin (db : DB) : Conn × DB := (db.Master, db)

/-- Write `func (db *DB) BeginTx`: `db.Master().BeginTxx(ctx, opts)`. -/
def DB.BeginTx (db : DB) : Conn × DB := (db.Master, db)

/-- Read `func (db *DB) Query`: `db.Slave().QueryxContext(...)`. -/
def DB.Query (db : DB) : Conn × DB := db.Slave

/-- Read `func (db *DB) QueryRow`: `db.Slave().QueryRowxContext(...)`. -/
def DB.QueryRow (db : DB) : Conn × DB := db.Slave

/-- Read `func (db *DB) Select`: `db.Slave().SelectContext(...)`. -/
def DB.Select (db : DB) : Conn × DB := db.Slave

/-- Read `func (db *DB) Get`: `db.Slave().GetContext(...)`. -/
def DB.Get (db : DB) : Conn × DB := db.Slave

/-- Read `func (db *DB) NamedQuery`: `db.Slave().NamedQueryContext(...)`. -/
def DB.NamedQuery (db : DB) : Conn × DB := db.Slave

/-- A per-target prepared statement, as created by
`db.conns[i].PreparexContext(ctx, query)`: records the target index it was
prepared against and the query text. -/
structure PStmt where
  target : Nat
  query : String
deriving DecidableEq

instance : Inhabited PStmt := ⟨⟨0, ""⟩⟩

/-- Group `type stmt struct`: one prepared statement per physical connection;
the `db *DB` back-reference of the source is passed explicitly to each
method. -/
structure stmt where
  stmts : List PStmt
deriving DecidableEq

/-- Group `type namedStmt struct`: the named-parameter variant. -/
structure namedStmt where
  stmts : List PStmt
deriving DecidableEq

/-- Selector reuse `func (s *stmt) indexForSalve()`:
`s.db.slave(len(s.db.conns))`. -/
def stmt.indexForSalve (s : stmt) (db : DB) : Nat × DB := db.slave db.conns.length

/-- Group write `func (s *stmt) Exec`: `s.stmts[0].MustExecContext(...)`. -/
def stmt.Exec (s : stmt) (db : DB) : PStmt × DB := (s.stmts.headI, db)

/-- Group read `func (s *stmt) Query`:
`s.stmts[s.indexForSalve()].QueryxContext(...)`. -/
def stmt.Query (s : stmt) (db : DB) : PStmt × DB :=
  (s.stmts.getD (s.indexForSalve db).1 default, (s.indexForSalve db).2)

/-- Group read `func (s *stmt) QueryRow`:
`s.stmts[s.indexForSalve()].QueryRowxContext(...)`. -/
def stmt.QueryRow (s : stmt) (db : DB) : PStmt × DB :=
  (s.stmts.getD (s.indexForSalve db).1 default, (s.indexForSalve db).2)

/-- Group read `func (s *stmt) Select`:
`s.stmts[s.indexForSalve()].SelectContext(...)`. -/
def stmt.Select (s : stmt) (db : DB) : PStmt × DB :=
  (s.stmts.getD (s.indexForSalve db).1 default, (s.indexForSalve db).2)

/-- Group read `func (s *stmt) Get`:
`s.stmts[s.indexForSalve()].GetContext(...)`. -/
def stmt.Get (s : stmt) (db : DB) : PStmt × DB :=
  (s.stmts.getD (s.indexForSalve db).1 default, (s.indexForSalve db).2)

/-- Selector reuse `func (s *namedStmt) indexForSalve()`:
`s.db.slave(len(s.db.conns))`. -/
def namedStmt.indexForSalve (s : namedStmt) (db : DB) : Nat × DB :=
  db.slave db.conns.length

/-- Group write `func (s *namedStmt) Exec`:
`s.stmts[0].MustExecContext(...)`. -/
def namedStmt.Exec (s : namedStmt) (db : DB) : PStmt × DB := (s.stmts.headI, db)

/-- Group read `func (s *namedStmt) Query`. -/
def namedStmt.Query (s : namedStmt) (db : DB) : PStmt × DB :=
  (s.stmts.getD (s.indexForSalve db).1 default, (s.indexForSalve db).2)

/-- Group read `func (s *namedStmt) QueryRow`. -/
def namedStmt.QueryRow (s : namedStmt) (db : DB) : PStmt × DB :=
  (s.stmts.getD (s.indexForSalve db).1 default, (s.indexForSalve db).2)

/-- Group read `func (s *namedStmt) Select`. -/
def namedStmt.Select (s : namedStmt) (db : DB) : PStmt × DB :=
  (s.stmts.getD (s.indexForSalve db).1 default, (s.indexForSalve db).2)

/-- Group read `func (s *namedStmt) Get`. -/
def namedStmt.Get (s : namedStmt) (db : DB) : PStmt × DB :=
  (s.stmts.getD (s.indexForSalve db).1 default, (s.indexForSalve db).2)

/-- Statements filled into the `stmts` slice by the prepare fan-out: slot i
holds the statement prepared against target i whenever the collaborator
succeeds there; failed slots stay empty. -/
def prepared {ε : Type} (n : Nat) (query : String) (prepErr : Nat → Option ε) : List PStmt :=
  (List.range n).filterMap
    (fun i => match prepErr i with | none => some ⟨i, query⟩ | some _ => none)

/-- Builder `func (db *DB) Prepare(ctx, query)`: fans `PreparexContext` out
to every connection through `scan`, filling one statement slot per target;
`prepErr i` is the collaborator's outcome on target i and `order` the
completion order. On any failure the aggregated error is returned and no
group. The second component lists the per-target statements successfully
created and still open when Prepare returns: the source closes nothing on
either path, so every successfully created statement stays open. -/
def DB.Prepare {ε : Type} (db : DB) (query : String) (prepErr : Nat → Option ε)
    (order : List Nat) : Except ε stmt × List PStmt :=
  match scan prepErr order with
  | some e => (Except.error e, prepared db.conns.length query prepErr)
  | none => (Except.ok ⟨prepared db.conns.length query prepErr⟩,
      prepared db.conns.length query prepErr)

/-- Builder `func (db *DB) NamedPrepare(ctx, query)`: same shape as Prepare
with `PrepareNamedContext`, yielding a named group. -/
def DB.NamedPrepare {ε : Type} (db : DB) (query : String) (prepErr : Nat → Option ε)
    (order : List Nat) : Except ε namedStmt × List PStmt :=
  match scan prepErr order with
  | some e => (Except.error e, prepared db.conns.length query prepErr)
  | none => (Except.ok ⟨prepared db.conns.length query prepErr⟩,
      prepared db.conns.length query prepErr)

/-- One read call of the logical handle or of a prepared statement group,
used to reason about interleaved sequences of reads. -/
inductive ReadOp
  | dbQuery | dbQueryRow | dbSelect | dbGet | dbNamedQuery
  | stQuery | stQueryRow | stSelect | stGet
  | nsQuery | nsQueryRow | nsSelect | nsGet

/-- Handle state after one read operation (the rows result is discarded;
only the routing state matters). -/
def readStep (s : stmt) (ns : namedStmt) (db : DB) : ReadOp → DB
  | .dbQuery => db.Query.2
  | .dbQueryRow => db.QueryRow.2
  | .dbSelect => db.Select.2
  | .dbGet => db.Get.2
  | .dbNamedQuery => db.NamedQuery.2
  | .stQuery => (stmt.Query s db).2
  | .stQueryRow => (stmt.QueryRow s db).2
  | .stSelect => (stmt.Select s db).2
  | .stGet => (stmt.Get s db).2
  | .nsQuery => (namedStmt.Query ns db).2
  | .nsQueryRow => (namedStmt.QueryRow ns db).2
  | .nsSelect => (namedStmt.Select ns db).2
  | .nsGet => (namedStmt.Get ns db).2

/-- Handle state after an interleaved sequence of read operations. -/
def runReads (s : stmt) (ns : namedStmt) (db : DB) : List ReadOp → DB
  | [] => db
  | op :: ops => runReads s ns (readStep s ns db op) ops

theorem scan_all_ok {ε : Type} (fn : Nat → Option ε) (order : List Nat)
    (hok : ∀ i ∈ order, fn i = none) : scan fn order = none := by
  unfold scan
  rw [collectErrs_eq_none_iff]
  intro x hx
  obtain ⟨i, hi, rfl⟩ := List.mem_map.1 hx
  exact hok i hi

/-- C5: Open splits the topology descriptor on ";" and connects one physical
target per entry in order: when every connect succeeds it returns the handle
whose connections are exactly the split entries (each paired with the
driver), in order, so the first entry is the master and the remaining
entries are the slaves in order. -/
theorem Open_splits {ε : Type} (driver : String) (source : List Char)
    (connErr : List Char → Option ε) (order : List Nat)
    (hok : ∀ d, connErr d = none) :
    Open driver source connErr order =
      Except.ok ⟨(goSplit ';' source).map (fun d => ⟨driver, d⟩), 0⟩ ∧
    (∀ db, Open driver source connErr order = Except.ok db →
      db.Master = ⟨driver, (goSplit ';' source).headI⟩ ∧
      db.conns.tail = ((goSplit ';' source).tail).map (fun d => ⟨driver, d⟩)) := by
  have hopen : Open driver source connErr order =
      Except.ok ⟨(goSplit ';' source).map (fun d => ⟨driver, d⟩), 0⟩ := by
    unfold Open
    rw [scan_all_ok _ _ (fun i _ => hok _)]
  refine ⟨hopen, ?_⟩
  intro db hdb
  rw [hopen] at hdb
  injection hdb with h
  subst h
  cases hs : goSplit ';' source with
  | nil => exact absurd hs (goSplit_ne_nil ';' source)
  | cons p ps =>
    constructor
    · simp [DB.Master, hs]
    · simp [hs]

/-- Witness for C5 at driver "pg" and source "A;B;C": the handle's master is
the connection for "A" and the slaves are those for "B" and "C". -/
theorem Open_splits_w :
    Open "pg" ("A;B;C".toList) (fun _ => (none : Option String)) [0, 1, 2] =
      Except.ok ⟨(goSplit ';' ("A;B;C".toList)).map (fun d => ⟨"pg", d⟩), 0⟩ ∧
    (∀ db, Open "pg" ("A;B;C".toList) (fun _ => (none : Option String)) [0, 1, 2] =
        Except.ok db →
      db.Master = ⟨"pg", (goSplit ';' ("A;B;C".toList)).headI⟩ ∧
      db.conns.tail = ((goSplit ';' ("A;B;C".toList)).tail).map (fun d => ⟨"pg", d⟩)) :=
  Open_splits "pg" ("A;B;C".toList) (fun _ => (none : Option String)) [0, 1, 2]
    (fun _ => rfl)

/-- C10: the DSN list Open fans out over has exactly (number of ";" in the
source) + 1 entries — one connection attempt per entry, as the receive loop
of its scan performs that many iterations — and is never empty; the empty
descriptor is not rejected: it yields one target whose DSN is the empty
string, which is both the master and the sole read target (the selector
returns index 0 for a single connection, so Slave coincides with Master and
leaves the handle unchanged). -/
theorem Open_attempts {ε : Type} (driver : String) (source : List Char)
    (connErr : List Char → Option ε) (order : List Nat)
    (hperm : order.Perm (List.range (goSplit ';' source).length)) :
    (collectErrsCount (order.map (fun i => connErr ((goSplit ';' source).getD i [])))).1 =
      source.count ';' + 1 ∧
    goSplit ';' source ≠ [] ∧
    (connErr [] = none → ∀ order1 : List Nat, order1.Perm (List.range 1) →
      Open driver [] connErr order1 = Except.ok ⟨[⟨driver, []⟩], 0⟩) ∧
    (DB.Slave ⟨[⟨driver, []⟩], 0⟩).1 = DB.Master ⟨[⟨driver, []⟩], 0⟩ ∧
    (DB.Slave ⟨[⟨driver, []⟩], 0⟩).2 = ⟨[⟨driver, []⟩], 0⟩ := by
  refine ⟨?_, goSplit_ne_nil ';' source, ?_, rfl, rfl⟩
  · rw [collectErrsCount_fst, List.length_map, hperm.length_eq, List.length_range,
      goSplit_length]
  · intro hok order1 h1
    have : order1 = [0] := by
      simpa [List.range_succ, List.perm_singleton] using h1
    subst this
    have hscan : scan (fun i => connErr ((goSplit ';' ([] : List Char)).getD i [])) [0] = none := by
      apply scan_all_ok
      intro i hi
      simp only [List.mem_singleton] at hi
      subst hi
      simpa [goSplit] using hok
    unfold Open
    rw [hscan]
    rfl

/-- Witness for C10 at source "A;B" with completion order [1, 0]: two
connection attempts are made, and the empty-source part holds with the
trivial order [0]. -/
theorem Open_attempts_w :
    List.Perm [1, 0] (List.range (goSplit ';' ("A;B".toList)).length) ∧
    ((collectErrsCount ([1, 0].map
        (fun i => (fun _ => (none : Option String)) ((goSplit ';' ("A;B".toList)).getD i [])))).1 =
        ("A;B".toList).count ';' + 1 ∧
      goSplit ';' ("A;B".toList) ≠ [] ∧
      ((fun _ => (none : Option String)) ([] : List Char) = none →
        ∀ order1 : List Nat, order1.Perm (List.range 1) →
          Open "pg" [] (fun _ => (none : Option String)) order1 =
            Except.ok ⟨[⟨"pg", []⟩], 0⟩) ∧
      (DB.Slave ⟨[⟨"pg", []⟩], 0⟩).1 = DB.Master ⟨[⟨"pg", []⟩], 0⟩ ∧
      (DB.Slave ⟨[⟨"pg", []⟩], 0⟩).2 = ⟨[⟨"pg", []⟩], 0⟩) :=
  ⟨by decide, Open_attempts "pg" ("A;B".toList) (fun _ => (none : Option String)) [1, 0]
    (by decide)⟩

theorem scan_none_all {ε : Type} (n : Nat) (fn : Nat → Option ε) (order : List Nat)
    (hperm : order.Perm (List.range n)) (h : scan fn order = none) :
    ∀ i < n, fn i = none := by
  intro i hi
  unfold scan at h
  rw [collectErrs_eq_none_iff] at h
  exact h (fn i) (List.mem_map_of_mem fn (hperm.mem_iff.2 (List.mem_range.2 hi)))

theorem filterMap_all_some {ε : Type} (q : String) (prepErr : Nat → Option ε)
    (l : List Nat) (hall : ∀ i ∈ l, prepErr i = none) :
    l.filterMap (fun i => match prepErr i with | none => some ⟨i, q⟩ | some _ => none) =
      l.map (fun i => (⟨i, q⟩ : PStmt)) := by
  induction l with
  | nil => rfl
  | cons a l ih =>
    have ha : prepErr a = none := hall a (by simp)
    simp only [List.filterMap_cons, ha, List.map_cons]
    exact congrArg _ (ih (fun i hi => hall i (by simp [hi])))

theorem prepared_all_ok {ε : Type} (n : Nat) (q : String) (prepErr : Nat → Option ε)
    (hall : ∀ i < n, prepErr i = none) :
    prepared n q prepErr = (List.range n).map (fun i => (⟨i, q⟩ : PStmt)) := by
  unfold prepared
  exact filterMap_all_some q prepErr (List.range n)
    (fun i hi => hall i (List.mem_range.1 hi))

theorem prepared_headI {ε : Type} (m : Nat) (q : String) (prepErr : Nat → Option ε)
    (hall : ∀ i < m + 1, prepErr i = none) :
    (prepared (m + 1) q prepErr).headI = ⟨0, q⟩ := by
  rw [prepared_all_ok (m + 1) q prepErr hall, List.range_succ_eq_map]
  rfl

/-- C6: every write of the logical handle (Exec, NamedExec, Begin, BeginTx)
runs on the connection at index 0 (the master) and leaves the handle — in
particular the selection counter — untouched, whatever the counter's value
`c`; and the Exec of a group built by a successful Prepare or NamedPrepare
uses the statement prepared against index 0. -/
theorem writes_use_master {ε : Type} (cs : List Conn) (c : Nat) (s : stmt) (ns : namedStmt) :
    DB.Exec ⟨cs, c⟩ = (cs.headI, ⟨cs, c⟩) ∧
    DB.NamedExec ⟨cs, c⟩ = (cs.headI, ⟨cs, c⟩) ∧
    DB.Begin ⟨cs, c⟩ = (cs.headI, ⟨cs, c⟩) ∧
    DB.BeginTx ⟨cs, c⟩ = (cs.headI, ⟨cs, c⟩) ∧
    stmt.Exec s ⟨cs, c⟩ = (s.stmts.headI, ⟨cs, c⟩) ∧
    namedStmt.Exec ns ⟨cs, c⟩ = (ns.stmts.headI, ⟨cs, c⟩) ∧
    (∀ (q : String) (prepErr : Nat → Option ε) (order : List Nat) (g : stmt),
      cs ≠ [] → order.Perm (List.range cs.length) →
      (DB.Prepare ⟨cs, c⟩ q prepErr order).1 = Except.ok g →
      (stmt.Exec g ⟨cs, c⟩).1 = ⟨0, q⟩) ∧
    (∀ (q : String) (prepErr : Nat → Option ε) (order : List Nat) (g : namedStmt),
      cs ≠ [] → order.Perm (List.range cs.length) →
      (DB.NamedPrepare ⟨cs, c⟩ q prepErr order).1 = Except.ok g →
      (namedStmt.Exec g ⟨cs, c⟩).1 = ⟨0, q⟩) := by
  refine ⟨rfl, rfl, rfl, rfl, rfl, rfl, ?_, ?_⟩
  · intro q prepErr order g hne hperm hok
    unfold DB.Prepare at hok
    cases hscan : scan prepErr order with
    | some e => rw [hscan] at hok; exact absurd hok (by simp)
    | none =>
      rw [hscan] at hok
      simp only at hok
      injection hok with h
      subst h
      have hall : ∀ i < cs.length, prepErr i = none :=
        scan_none_all cs.length prepErr order hperm hscan
      cases hcs : cs with
      | nil => exact absurd hcs hne
      | cons a l =>
        subst hcs
        exact prepared_headI l.length q prepErr (by simpa using hall)
  · intro q prepErr order g hne hperm hok
    unfold DB.NamedPrepare at hok
    cases hscan : scan prepErr order with
    | some e => rw [hscan] at hok; exact absurd hok (by simp)
    | none =>
      rw [hscan] at hok
      simp only at hok
      injection hok with h
      subst h
      have hall : ∀ i < cs.length, prepErr i = none :=
        scan_none_all cs.length prepErr order hperm hscan
      cases hcs : cs with
      | nil => exact absurd hcs hne
      | cons a l =>
        subst hcs
        exact prepared_headI l.length q prepErr (by simpa using hall)

/-- Witness for C6 on a two-connection handle with counter 5: a successful
Prepare yields a group whose Exec uses the statement prepared against
index 0. -/
theorem writes_use_master_w :
    (([⟨"d", ['A']⟩, ⟨"d", ['B']⟩] : List Conn) ≠ [] ∧
      List.Perm [0, 1] (List.range ([⟨"d", ['A']⟩, ⟨"d", ['B']⟩] : List Conn).length) ∧
      (DB.Prepare ⟨[⟨"d", ['A']⟩, ⟨"d", ['B']⟩], 5⟩ "q" (fun _ => (none : Option String))
          [0, 1]).1 = Except.ok ⟨prepared 2 "q" (fun _ => (none : Option String))⟩) ∧
    (stmt.Exec ⟨prepared 2 "q" (fun _ => (none : Option String))⟩
        ⟨[⟨"d", ['A']⟩, ⟨"d", ['B']⟩], 5⟩).1 = ⟨0, "q"⟩ :=
  ⟨⟨by decide, by decide, rfl⟩,
    (writes_use_master [⟨"d", ['A']⟩, ⟨"d", ['B']⟩] 5 ⟨[]⟩ ⟨[]⟩).2.2.2.2.2.2.1
      "q" (fun _ => (none : Option String)) [0, 1]
      ⟨prepared 2 "q" (fun _ => (none : Option String))⟩
      (by decide) (by decide) rfl⟩

theorem readStep_frame (s : stmt) (ns : namedStmt) (db : DB) (op : ReadOp)
    (h : 2 ≤ db.conns.length) :
    (readStep s ns db op).count = (db.count + 1) % U64 ∧
    (readStep s ns db op).conns = db.conns := by
  have h1 := slave_count_eq db db.conns.length h
  have h2 := slave_conns_eq db db.conns.length
  cases op <;> exact ⟨h1, h2⟩

theorem runReads_frame (s : stmt) (ns : namedStmt) (ops : List ReadOp) :
    ∀ db : DB, db.count < U64 → 2 ≤ db.conns.length →
      (runReads s ns db ops).count = (db.count + ops.length) % U64 ∧
      (runReads s ns db ops).conns = db.conns := by
  induction ops with
  | nil =>
    intro db hc _
    simp [runReads, Nat.mod_eq_of_lt hc]
  | cons op rest ih =>
    intro db hc hn
    have hf := readStep_frame s ns db op hn
    have hu : 0 < U64 := by decide
    have hlt : (readStep s ns db op).count < U64 := by
      rw [hf.1]; exact Nat.mod_lt _ hu
    have hn' : 2 ≤ (readStep s ns db op).conns.length := by rw [hf.2]; exact hn
    have hr := ih (readStep s ns db op) hlt hn'
    unfold runReads
    refine ⟨?_, by rw [hr.2, hf.2]⟩
    rw [hr.1, hf.1, Nat.mod_add_mod]
    have hlen : (op :: rest).length = rest.length + 1 := by simp
    rw [hlen]
    congr 1
    omega

/-- C7: every read of the handle (Query, QueryRow, Select, Get, NamedQuery)
and of both statement groups (Query, QueryRow, Select, Get) takes its index
and state update from the one selector `slave(len(conns))` on the owning
handle's shared counter; consequently any interleaved sequence of k ad hoc
and prepared reads advances that single counter to (count + k) mod 2^64,
with the connection list untouched, whenever at least two connections
exist. -/
theorem reads_share_selector (db : DB) (s : stmt) (ns : namedStmt) :
    (db.Query = (db.conns.getD (db.slave db.conns.length).1 default,
        (db.slave db.conns.length).2) ∧
      db.QueryRow = (db.conns.getD (db.slave db.conns.length).1 default,
        (db.slave db.conns.length).2) ∧
      db.Select = (db.conns.getD (db.slave db.conns.length).1 default,
        (db.slave db.conns.length).2) ∧
      db.Get = (db.conns.getD (db.slave db.conns.length).1 default,
        (db.slave db.conns.length).2) ∧
      db.NamedQuery = (db.conns.getD (db.slave db.conns.length).1 default,
        (db.slave db.conns.length).2) ∧
      stmt.Query s db = (s.stmts.getD (db.slave db.conns.length).1 default,
        (db.slave db.conns.length).2) ∧
      stmt.QueryRow s db = (s.stmts.getD (db.slave db.conns.length).1 default,
        (db.slave db.conns.length).2) ∧
      stmt.Select s db = (s.stmts.getD (db.slave db.conns.length).1 default,
        (db.slave db.conns.length).2) ∧
      stmt.Get s db = (s.stmts.getD (db.slave db.conns.length).1 default,
        (db.slave db.conns.length).2) ∧
      namedStmt.Query ns db = (ns.stmts.getD (db.slave db.conns.length).1 default,
        (db.slave db.conns.length).2) ∧
      namedStmt.QueryRow ns db = (ns.stmts.getD (db.slave db.conns.length).1 default,
        (db.slave db.conns.length).2) ∧
      namedStmt.Select ns db = (ns.stmts.getD (db.slave db.conns.length).1 default,
        (db.slave db.conns.length).2) ∧
      namedStmt.Get ns db = (ns.stmts.getD (db.slave db.conns.length).1 default,
        (db.slave db.conns.length).2)) ∧
    (∀ ops : List ReadOp, db.count < U64 → 2 ≤ db.conns.length →
      (runReads s ns db ops).count = (db.count + ops.length) % U64 ∧
      (runReads s ns db ops).conns = db.conns) := by
  refine ⟨⟨rfl, rfl, rfl, rfl, rfl, rfl, rfl, rfl, rfl, rfl, rfl, rfl, rfl⟩, ?_⟩
  intro ops hc hn
  exact runReads_frame s ns ops db hc hn

/-- Witness for C7: three interleaved reads (ad hoc query, prepared Get,
named prepared Select) on a fresh two-connection handle advance the shared
counter to (0 + 3) mod 2 ^ 64 and keep the connections. -/
theorem reads_share_selector_w :
    ((0 : Nat) < U64 ∧ 2 ≤ ([⟨"d", ['A']⟩, ⟨"d", ['B']⟩] : List Conn).length) ∧
    ((runReads ⟨[]⟩ ⟨[]⟩ ⟨[⟨"d", ['A']⟩, ⟨"d", ['B']⟩], 0⟩
        [ReadOp.dbQuery, ReadOp.stGet, ReadOp.nsSelect]).count = (0 + 3) % U64 ∧
      (runReads ⟨[]⟩ ⟨[]⟩ ⟨[⟨"d", ['A']⟩, ⟨"d", ['B']⟩], 0⟩
        [ReadOp.dbQuery, ReadOp.stGet, ReadOp.nsSelect]).conns =
        [⟨"d", ['A']⟩, ⟨"d", ['B']⟩]) :=
  ⟨⟨by decide, by decide⟩,
    (reads_share_selector ⟨[⟨"d", ['A']⟩, ⟨"d", ['B']⟩], 0⟩ ⟨[]⟩ ⟨[]⟩).2
      [ReadOp.dbQuery, ReadOp.stGet, ReadOp.nsSelect] (by decide) (by decide)⟩

/-- C8: when preparing fails on at least one target (under any completion
order), Prepare and NamedPrepare return no group — an error — and every
statement already created successfully on another target is still among the
open (never closed) per-target statements when they return. -/
theorem prepare_partial_failure {ε : Type} (db : DB) (q : String)
    (prepErr : Nat → Option ε) (order : List Nat)
    (hperm : order.Perm (List.range db.conns.length))
    (hfail : ∃ i < db.conns.length, prepErr i ≠ none) :
    (∃ e, (db.Prepare q prepErr order).1 = Except.error e) ∧
    (db.Prepare q prepErr order).2 = prepared db.conns.length q prepErr ∧
    (∀ i < db.conns.length, prepErr i = none →
      (⟨i, q⟩ : PStmt) ∈ (db.Prepare q prepErr order).2) ∧
    (∃ e, (db.NamedPrepare q prepErr order).1 = Except.error e) ∧
    (db.NamedPrepare q prepErr order).2 = prepared db.conns.length q prepErr ∧
    (∀ i < db.conns.length, prepErr i = none →
      (⟨i, q⟩ : PStmt) ∈ (db.NamedPrepare q prepErr order).2) := by
  cases hscan : scan prepErr order with
  | none =>
    exfalso
    obtain ⟨i, hi, hne⟩ := hfail
    exact hne (scan_none_all db.conns.length prepErr order hperm hscan i hi)
  | some e =>
    have hmem : ∀ i < db.conns.length, prepErr i = none →
        (⟨i, q⟩ : PStmt) ∈ prepared db.conns.length q prepErr := by
      intro i hi hnone
      unfold prepared
      rw [List.mem_filterMap]
      exact ⟨i, List.mem_range.2 hi, by rw [hnone]⟩
    have hp : db.Prepare q prepErr order =
        (Except.error e, prepared db.conns.length q prepErr) := by
      unfold DB.Prepare
      rw [hscan]
    have hnp : db.NamedPrepare q prepErr order =
        (Except.error e, prepared db.conns.length q prepErr) := by
      unfold DB.NamedPrepare
      rw [hscan]
    refine ⟨⟨e, by rw [hp]⟩, by rw [hp], ?_, ⟨e, by rw [hnp]⟩, by rw [hnp], ?_⟩
    · intro i hi hnone
      rw [hp]
      exact hmem i hi hnone
    · intro i hi hnone
      rw [hnp]
      exact hmem i hi hnone

/-- Witness for C8 on a two-connection handle where target 1 fails to
prepare: an error comes back and the statement created on target 0 is still
open. -/
theorem prepare_partial_failure_w :
    (List.Perm [0, 1]
        (List.range (DB.mk [⟨"d", ['A']⟩, ⟨"d", ['B']⟩] 0).conns.length) ∧
      (∃ i < (DB.mk [⟨"d", ['A']⟩, ⟨"d", ['B']⟩] 0).conns.length,
        (fun i => if i = 1 then some "boom" else none) i ≠ none)) ∧
    ((∃ e, ((DB.mk [⟨"d", ['A']⟩, ⟨"d", ['B']⟩] 0).Prepare "q"
        (fun i => if i = 1 then some "boom" else none) [0, 1]).1 = Except.error e) ∧
      ((DB.mk [⟨"d", ['A']⟩, ⟨"d", ['B']⟩] 0).Prepare "q"
        (fun i => if i = 1 then some "boom" else none) [0, 1]).2 =
        prepared (DB.mk [⟨"d", ['A']⟩, ⟨"d", ['B']⟩] 0).conns.length "q"
          (fun i => if i = 1 then some "boom" else none) ∧
      (∀ i < (DB.mk [⟨"d", ['A']⟩, ⟨"d", ['B']⟩] 0).conns.length,
        (fun i => if i = 1 then some "boom" else none) i = none →
        (⟨i, "q"⟩ : PStmt) ∈ ((DB.mk [⟨"d", ['A']⟩, ⟨"d", ['B']⟩] 0).Prepare "q"
          (fun i => if i = 1 then some "boom" else none) [0, 1]).2) ∧
      (∃ e, ((DB.mk [⟨"d", ['A']⟩, ⟨"d", ['B']⟩] 0).NamedPrepare "q"
        (fun i => if i = 1 then some "boom" else none) [0, 1]).1 = Except.error e) ∧
      ((DB.mk [⟨"d", ['A']⟩, ⟨"d", ['B']⟩] 0).NamedPrepare "q"
        (fun i => if i = 1 then some "boom" else none) [0, 1]).2 =
        prepared (DB.mk [⟨"d", ['A']⟩, ⟨"d", ['B']⟩] 0).conns.length "q"
          (fun i => if i = 1 then some "boom" else none) ∧
      (∀ i < (DB.mk [⟨"d", ['A']⟩, ⟨"d", ['B']⟩] 0).conns.length,
        (fun i => if i = 1 then some "boom" else none) i = none →
        (⟨i, "q"⟩ : PStmt) ∈ ((DB.mk [⟨"d", ['A']⟩, ⟨"d", ['B']⟩] 0).NamedPrepare "q"
          (fun i => if i = 1 then some "boom" else none) [0, 1]).2)) :=
  ⟨⟨by decide, by decide⟩,
    prepare_partial_failure (DB.mk [⟨"d", ['A']⟩, ⟨"d", ['B']⟩] 0) "q"
      (fun i => if i = 1 then some "boom" else none) [0, 1] (by decide) (by decide)⟩

end Sqlxy
